import Mathlib

/-!
Verification of the Clove admin-console front end (cookie batch processor,
PKCE generation, OAuth code exchange, settings autosave).

Strings are modelled as `List Char`; JavaScript `String.prototype.trim`,
`split('\n')`, `join('\n')` and `startsWith` are embedded as executable
functions below.  Backend calls are oracles (`Backend`), and the Web-Crypto
SHA-256 digest is a parameter of the PKCE generator.
-/

/-- JavaScript whitespace test used by `trim`, restricted to the ASCII
whitespace characters relevant here. -/
def isWS (c : Char) : Bool := c.isWhitespace

/-- Remove trailing whitespace (the right half of `String.prototype.trim`). -/
def trimRight : List Char → List Char
  | [] => []
  | c :: rest =>
    let r := trimRight rest
    if r = [] then (if isWS c then [] else [c]) else c :: r

/-- `String.prototype.trim`: strip leading and trailing whitespace. -/
def trimStr (s : List Char) : List Char := trimRight (s.dropWhile isWS)

/-- Prepend a character to the first chunk of a split result. -/
def consHead (c : Char) : List (List Char) → List (List Char)
  | [] => [[c]]
  | h :: t => (c :: h) :: t

/-- `String.prototype.split('\n')`. -/
def splitOnNewline : List Char → List (List Char)
  | [] => [[]]
  | c :: rest =>
    if c = '\n' then [] :: splitOnNewline rest else consHead c (splitOnNewline rest)

/-- `Array.prototype.join('\n')`. -/
def joinNewline : List (List Char) → List Char
  | [] => []
  | [x] => x
  | x :: y :: xs => x ++ '\n' :: joinNewline (y :: xs)

/-- The secret-style cookie marker `sk-ant-sid01-`. -/
def sessionKeySecret : List Char := "sk-ant-sid01-".data

/-- The full required cookie marker `sessionKey=sk-ant-sid01-`. -/
def fullSessionKey : List Char := "sessionKey=sk-ant-sid01-".data

namespace BatchCookieModal

/-- `validateAndProcessCookie` from `BatchCookieModal.tsx`: trim, prepend
`sessionKey=` when the value starts with the secret marker, then validate
against the full marker. -/
def validateAndProcessCookie (cookieValue : List Char) : Bool × List Char :=
  let processedValue := trimStr cookieValue
  let processedValue' :=
    if sessionKeySecret.isPrefixOf processedValue then
      "sessionKey=".data ++ processedValue
    else processedValue
  let isValid := fullSessionKey.isPrefixOf processedValue'
  (isValid, processedValue')

end BatchCookieModal

namespace AccountModal

/-- `validateAndProcessCookie` from `AccountModal.tsx` (textually identical to
the batch modal's copy). -/
def validateAndProcessCookie (cookieValue : List Char) : Bool × List Char :=
  let processedValue := trimStr cookieValue
  let processedValue' :=
    if sessionKeySecret.isPrefixOf processedValue then
      "sessionKey=".data ++ processedValue
    else processedValue
  let isValid := fullSessionKey.isPrefixOf processedValue'
  (isValid, processedValue')

end AccountModal

/-- Row status in the batch modal (`CookieResult['status']`). -/
inductive Status
  | pending
  | processing
  | success
  | error
deriving DecidableEq

/-- One row of the batch modal's `results` state (`CookieResult`). -/
structure CookieResult where
  cookie : List Char
  status : Status
  error : Option (List Char) := none
  organizationUuid : Option (List Char) := none
deriving DecidableEq

/-- The `accountsApi.create` oracle: for a processed cookie value it either
resolves with an `organization_uuid` or rejects with an optional backend
detail message (`error.response?.data?.detail?.message`). -/
abbrev Backend := List Char → Except (Option (List Char)) (List Char)

/-- The fixed invalid-cookie-format message of the batch modal. -/
def invalidCookieMessage : List Char := "쿠키 형식이 잘못되었습니다".data

/-- The fixed fallback message for a rejected account creation. -/
def addFailedMessage : List Char := "추가 실패".data

/-- `error.response?.data?.detail?.message || '추가 실패'`. -/
def errMessageOf (m : Option (List Char)) : List Char := m.getD addFailedMessage

namespace BatchCookieModal

/-- Lines of the textarea: split on newlines, trim, drop empty lines. -/
def parseCookieLines (input : List Char) : List (List Char) :=
  ((splitOnNewline input).map trimStr).filter (fun l => decide (l.length > 0))

/-- How one loop iteration rewrites row `i` once its outcome is known:
validation failure, backend success, or backend failure. -/
def itemOutcome (b : Backend) (c : List Char) (r : CookieResult) : CookieResult :=
  let v := validateAndProcessCookie c
  if v.1 then
    match b v.2 with
    | Except.ok uuid => { r with status := Status.success, organizationUuid := some uuid }
    | Except.error m => { r with status := Status.error, error := some (errMessageOf m) }
  else
    { r with status := Status.error, error := some invalidCookieMessage }

/-- Observable effects of one loop iteration, in program order: mark the row
`processing`, possibly submit to the backend, record the outcome, and — on
the submission paths only — sleep the fixed 300 ms. -/
inductive Event
  | markProcessing (i : Nat)
  | submit (value : List Char)
  | recordOutcome (i : Nat) (st : Status)
  | delay (ms : Nat)
deriving DecidableEq

/-- Events emitted while processing line `i`.  A validation failure runs
`continue`, which jumps to the next iteration and skips the 300 ms sleep at
the bottom of the loop body, so no `delay` follows an invalid line. -/
def itemEvents (b : Backend) (i : Nat) (c : List Char) : List Event :=
  let v := validateAndProcessCookie c
  if v.1 then
    [Event.markProcessing i, Event.submit v.2,
     Event.recordOutcome i
       (match b v.2 with
        | Except.ok _ => Status.success
        | Except.error _ => Status.error),
     Event.delay 300]
  else
    [Event.markProcessing i, Event.recordOutcome i Status.error]

/-- `updated = [...prev]; updated[i] = f(updated[i])`: rewrite index `i`,
leave every other row alone. -/
def updateAt {α : Type} : List α → Nat → (α → α) → List α
  | [], _, _ => []
  | a :: l, 0, f => f a :: l
  | a :: l, n + 1, f => a :: updateAt l n f

/-- The sequential `for` loop of `handleSubmit`, from index `i`.  Returns the
final `results` array, the emitted events, and every intermediate `results`
snapshot produced by a `setResults` call inside the loop. -/
def loopFrom (b : Backend) : Nat → List (List Char) → List CookieResult →
    List CookieResult × List Event × List (List CookieResult)
  | _, [], rs => (rs, [], [])
  | i, c :: rest, rs =>
    let rs1 := updateAt rs i (fun r => { r with status := Status.processing })
    let rs2 := updateAt rs1 i (itemOutcome b c)
    let out := loopFrom b (i + 1) rest rs2
    (out.1, itemEvents b i c ++ out.2.1, rs1 :: rs2 :: out.2.2)

/-- `handleSubmit` of the batch modal: parse the lines (aborting silently on
empty input), initialise one pending row per line, then run the loop.  The
snapshot list starts with the `initialResults` array. -/
def handleSubmit (b : Backend) (input : List Char) :
    List CookieResult × List Event × List (List CookieResult) :=
  let cookieLines := parseCookieLines input
  if cookieLines.length = 0 then ([], [], [])
  else
    let initialResults : List CookieResult :=
      cookieLines.map (fun c => { cookie := c, status := Status.pending })
    let out := loopFrom b 0 cookieLines initialResults
    (out.1, out.2.1, initialResults :: out.2.2)

/-- Submissions contained in an event trace (the `accountsApi.create` calls). -/
def submissionsOf (evs : List Event) : List (List Char) :=
  evs.filterMap (fun e =>
    match e with
    | Event.submit v => some v
    | _ => none)

/-- `copyFailedCookies`: the text written to the clipboard — the raw inputs of
all error rows, joined with newlines. -/
def copyFailedCookies (results : List CookieResult) : List Char :=
  joinNewline
    ((results.filter (fun r => decide (r.status = Status.error))).map (fun r => r.cookie))

/-- The modal state relevant to closing: the `isProcessing` flag and the
`results` rows. -/
structure ModalState where
  isProcessing : Bool
  results : List CookieResult
deriving DecidableEq

/-- `handleClose`: returns whether `onClose` is invoked (`false` = no-op). -/
def handleClose (s : ModalState) : Bool :=
  if s.isProcessing then false else true

/-- The modal states a batch run passes through: `isProcessing` is set to
`true` before the loop and every snapshot inside the loop sees it `true`;
after the last line it is reset to `false`.  Empty input never starts a run. -/
def runModalStates (b : Backend) (input : List Char) : List ModalState :=
  if (parseCookieLines input).length = 0 then []
  else
    let out := handleSubmit b input
    (out.2.2.map (fun rs => ModalState.mk true rs)) ++ [ModalState.mk false out.1]

end BatchCookieModal

/-- The standard base64 alphabet indexed 0..63 (as used by `btoa`). -/
def base64Alphabet : List Char :=
  "ABCDEFGHIJKLMNOPQRSTUVWXYZabcdefghijklmnopqrstuvwxyz0123456789+/".data

/-- Character for a 6-bit group. -/
def b64Char (i : Nat) : Char := base64Alphabet.getD i 'A'

/-- `btoa` on a byte sequence (the binary string built via
`String.fromCharCode`): standard base64 with `=` padding. -/
def btoa : List Nat → List Char
  | [] => []
  | [b1] => [b64Char (b1 / 4), b64Char (b1 % 4 * 16), '=', '=']
  | [b1, b2] =>
    [b64Char (b1 / 4), b64Char (b1 % 4 * 16 + b2 / 16), b64Char (b2 % 16 * 4), '=']
  | b1 :: b2 :: b3 :: rest =>
    b64Char (b1 / 4) :: b64Char (b1 % 4 * 16 + b2 / 16) ::
      b64Char (b2 % 16 * 4 + b3 / 64) :: b64Char (b3 % 64) :: btoa rest

/-- `btoa(...).replace(/\+/g,'-').replace(/\//g,'_').replace(/=/g,'')`. -/
def base64url (bytes : List Nat) : List Char :=
  (((btoa bytes).map (fun c => if c = '+' then '-' else c)).map
      (fun c => if c = '/' then '_' else c)).filter (fun c => decide (c ≠ '='))

/-- UTF-8 bytes of one character (`TextEncoder.encode`). -/
def utf8Bytes (c : Char) : List Nat :=
  let n := c.toNat
  if n < 0x80 then [n]
  else if n < 0x800 then [0xC0 + n / 0x40, 0x80 + n % 0x40]
  else if n < 0x10000 then
    [0xE0 + n / 0x1000, 0x80 + n / 0x40 % 0x40, 0x80 + n % 0x40]
  else
    [0xF0 + n / 0x40000, 0x80 + n / 0x1000 % 0x40, 0x80 + n / 0x40 % 0x40, 0x80 + n % 0x40]

/-- `TextEncoder.encode` over a string. -/
def utf8Encode (s : List Char) : List Nat := (s.map utf8Bytes).flatten

namespace OAuthModal

/-- `generatePKCE` from the OAuth modal.  `digest` is the Web-Crypto SHA-256
oracle (bytes in, 32 digest bytes out) and `randomBytes` the 32 bytes drawn
from `crypto.getRandomValues`.  The verifier is the base64url-without-padding
encoding of the random bytes; the challenge applies the same encoding to the
digest of the verifier's UTF-8 bytes. -/
def generatePKCE (digest : List Nat → List Nat) (randomBytes : List Nat) :
    List Char × List Char :=
  let verifier := base64url randomBytes
  let challenge := base64url (digest (utf8Encode verifier))
  (verifier, challenge)

/-- The account tier selector of the OAuth modal (`'Pro' | 'Max'`). -/
inductive AccountType
  | Pro
  | Max
deriving DecidableEq

/-- The body sent to `accountsApi.exchangeOAuthCode`. -/
structure OAuthExchangeData where
  organization_uuid : List Char
  code : List Char
  pkce_verifier : List Char
  capabilities : List (List Char)
deriving DecidableEq

/-- The capability ternary of `handleExchangeToken`:
`accountType === 'Max' ? ['chat','claude_max'] : ['chat','claude_pro']`
(the trailing `['chat']` arm of the source ternary is unreachable because the
state is typed `'Pro' | 'Max'`). -/
def capabilitiesFor (accountType : AccountType) : List (List Char) :=
  match accountType with
  | AccountType.Max => ["chat".data, "claude_max".data]
  | AccountType.Pro => ["chat".data, "claude_pro".data]

/-- `handleExchangeToken`: rejects an empty (after trim) authorization code,
otherwise sends the formatted organization UUID, the pasted code, the stored
PKCE verifier and the capability set.  `formatUUID` is the external
normalizer from `@/utils/validators`. -/
def handleExchangeToken (formatUUID : List Char → List Char)
    (organizationUuid authCode pkceVerifier : List Char) (accountType : AccountType) :
    Option OAuthExchangeData :=
  if trimStr authCode = [] then none
  else
    some
      { organization_uuid := formatUUID organizationUuid
        code := authCode
        pkce_verifier := pkceVerifier
        capabilities := capabilitiesFor accountType }

end OAuthModal

namespace Settings

/-- The `SettingsRead` record as used by the settings page.  `JSON.stringify`
equality on these field types (strings, string arrays, numbers, booleans,
nullable strings) coincides with structural equality. -/
structure SettingsRead where
  api_keys : List (List Char)
  admin_api_keys : List (List Char)
  claude_ai_url : List Char
  claude_api_baseurl : List Char
  proxy_url : Option (List Char)
  custom_prompt : Option (List Char)
  human_name : List Char
  assistant_name : List Char
  padtxt_length : Int
  use_real_roles : Bool
  allow_external_images : Bool
  preserve_chats : Bool
deriving DecidableEq

/-- The `SettingsUpdate` patch: every field optional; `none` means the key is
absent from the patch object. -/
structure SettingsUpdate where
  api_keys : Option (List (List Char)) := none
  admin_api_keys : Option (List (List Char)) := none
  claude_ai_url : Option (List Char) := none
  claude_api_baseurl : Option (List Char) := none
  proxy_url : Option (Option (List Char)) := none
  custom_prompt : Option (Option (List Char)) := none
  human_name : Option (List Char) := none
  assistant_name : Option (List Char) := none
  padtxt_length : Option Int := none
  use_real_roles : Option Bool := none
  allow_external_images : Option Bool := none
  preserve_chats : Option Bool := none
deriving DecidableEq

/-- Per-key body of the `Object.keys(newSettings).forEach` diff: include the
new value exactly when it differs from the baseline. -/
def diffOpt {α : Type} [DecidableEq α] (a b : α) : Option α :=
  if a ≠ b then some a else none

/-- The field-by-field diff of `handleFieldChange` against `originalSettings`. -/
def computeChanges (original current : SettingsRead) : SettingsUpdate where
  api_keys := diffOpt current.api_keys original.api_keys
  admin_api_keys := diffOpt current.admin_api_keys original.admin_api_keys
  claude_ai_url := diffOpt current.claude_ai_url original.claude_ai_url
  claude_api_baseurl := diffOpt current.claude_api_baseurl original.claude_api_baseurl
  proxy_url := diffOpt current.proxy_url original.proxy_url
  custom_prompt := diffOpt current.custom_prompt original.custom_prompt
  human_name := diffOpt current.human_name original.human_name
  assistant_name := diffOpt current.assistant_name original.assistant_name
  padtxt_length := diffOpt current.padtxt_length original.padtxt_length
  use_real_roles := diffOpt current.use_real_roles original.use_real_roles
  allow_external_images := diffOpt current.allow_external_images original.allow_external_images
  preserve_chats := diffOpt current.preserve_chats original.preserve_chats

/-- `Object.keys(changes).length > 0` for a patch. -/
def hasChanges (u : SettingsUpdate) : Bool :=
  u.api_keys.isSome || u.admin_api_keys.isSome || u.claude_ai_url.isSome ||
  u.claude_api_baseurl.isSome || u.proxy_url.isSome || u.custom_prompt.isSome ||
  u.human_name.isSome || u.assistant_name.isSome || u.padtxt_length.isSome ||
  u.use_real_roles.isSome || u.allow_external_images.isSome || u.preserve_chats.isSome

/-- `handleFieldChange` (its network effect): diff the current settings
against the baseline snapshot and call `saveChanges` with the patch only when
some key changed; `saveChanges` itself also returns without a request on an
empty patch.  `some u` is the body of the single `settingsApi.update` call,
`none` means no request is issued. -/
def handleFieldChange (original current : SettingsRead) : Option SettingsUpdate :=
  let changes := computeChanges original current
  if hasChanges changes then some changes else none

/-- `handleAddApiKey`: no-op when the entered key is empty (falsy) or already
present; otherwise append it. -/
def handleAddApiKey (s : SettingsRead) (newApiKey : List Char) : SettingsRead :=
  if newApiKey = [] ∨ newApiKey ∈ s.api_keys then s
  else { s with api_keys := s.api_keys ++ [newApiKey] }

/-- `handleRemoveApiKey`: keep every key different from the removed one. -/
def handleRemoveApiKey (s : SettingsRead) (key : List Char) : SettingsRead :=
  { s with api_keys := s.api_keys.filter (fun k => decide (k ≠ key)) }

/-- `handleAddAdminKey`: same guard as `handleAddApiKey`, on the admin list. -/
def handleAddAdminKey (s : SettingsRead) (newAdminKey : List Char) : SettingsRead :=
  if newAdminKey = [] ∨ newAdminKey ∈ s.admin_api_keys then s
  else { s with admin_api_keys := s.admin_api_keys ++ [newAdminKey] }

/-- `handleRemoveAdminKey`. -/
def handleRemoveAdminKey (s : SettingsRead) (key : List Char) : SettingsRead :=
  { s with admin_api_keys := s.admin_api_keys.filter (fun k => decide (k ≠ key)) }

/-- The all-`none` patch (an empty JavaScript object). -/
def emptyUpdate : SettingsUpdate := {}

end Settings

/-- The three-line batch input of the spec's worked example. -/
def sampleBatchInput : List Char :=
  "sk-ant-sid01-aaa\ngarbage\nsessionKey=sk-ant-sid01-bbb".data

/-- Progress rank of a row status: `pending` before `processing` before the
terminal statuses. -/
def statusRank : Status → Nat
  | Status.pending => 0
  | Status.processing => 1
  | Status.success => 2
  | Status.error => 2

/-- A status is terminal when it is `success` or `error`. -/
def Terminal (st : Status) : Prop := st = Status.success ∨ st = Status.error

/-- One `results` array advances to another: same shape, every row's status
rank is nondecreasing, and a terminal status never changes. -/
def Advances (rs rs' : List CookieResult) : Prop :=
  rs'.length = rs.length ∧
  ∀ j r r', rs.get? j = some r → rs'.get? j = some r' →
    statusRank r.status ≤ statusRank r'.status ∧
    (Terminal r.status → r'.status = r.status)

theorem isPrefixOf_append_left (a b c : List Char) :
    (a ++ b).isPrefixOf (a ++ c) = b.isPrefixOf c := by
  induction a with
  | nil => rfl
  | cons x xs ih => simp [List.isPrefixOf, ih]

/-- C3: for every cookie input `s`, the shared normalize-and-validate function
prepends `sessionKey=` and validates true when `trim(s)` starts with
`sk-ant-sid01-`; otherwise it returns `trim(s)` unchanged and validates true
exactly when that value starts with `sessionKey=sk-ant-sid01-`.  The batch
modal and the single-account form use the same function. -/
theorem validateAndProcessCookie_spec (s : List Char) :
    BatchCookieModal.validateAndProcessCookie s = AccountModal.validateAndProcessCookie s ∧
    (sessionKeySecret.isPrefixOf (trimStr s) = true →
      BatchCookieModal.validateAndProcessCookie s = (true, "sessionKey=".data ++ trimStr s)) ∧
    (sessionKeySecret.isPrefixOf (trimStr s) = false →
      BatchCookieModal.validateAndProcessCookie s =
        (fullSessionKey.isPrefixOf (trimStr s), trimStr s)) := by
  refine ⟨rfl, ?_, ?_⟩
  · intro h
    have hfull : fullSessionKey = "sessionKey=".data ++ sessionKeySecret := by decide
    simp [BatchCookieModal.validateAndProcessCookie, h, hfull, isPrefixOf_append_left]
  · intro h
    simp [BatchCookieModal.validateAndProcessCookie, h]

theorem validateAndProcessCookie_spec_witness :
    sessionKeySecret.isPrefixOf (trimStr " sk-ant-sid01-xyz ".data) = true ∧
    BatchCookieModal.validateAndProcessCookie " sk-ant-sid01-xyz ".data =
      (true, "sessionKey=".data ++ trimStr " sk-ant-sid01-xyz ".data) :=
  ⟨by decide, (validateAndProcessCookie_spec " sk-ant-sid01-xyz ".data).2.1 (by decide)⟩

/-- C1 (amended): on the batch `["sk-ant-sid01-aaa", "garbage",
"sessionKey=sk-ant-sid01-bbb"]` (with the backend accepting both valid
lines), the run yields exactly one error row — line 2, with the fixed
invalid-cookie-format message — performs exactly the two submissions for
lines 1 and 3, and its event trace processes the lines strictly in input
order with a 300 ms delay after each submitted line; the validation-failure
line is left by `continue`, which skips the sleep, so no delay separates its
outcome from the next line. -/
theorem batch_sample_run (b : Backend) (u1 u3 : List Char)
    (hb1 : b "sessionKey=sk-ant-sid01-aaa".data = Except.ok u1)
    (hb3 : b "sessionKey=sk-ant-sid01-bbb".data = Except.ok u3) :
    (BatchCookieModal.handleSubmit b sampleBatchInput).1 =
      [{ cookie := "sk-ant-sid01-aaa".data, status := Status.success,
         organizationUuid := some u1 },
       { cookie := "garbage".data, status := Status.error,
         error := some invalidCookieMessage },
       { cookie := "sessionKey=sk-ant-sid01-bbb".data, status := Status.success,
         organizationUuid := some u3 }] ∧
    (BatchCookieModal.handleSubmit b sampleBatchInput).2.1 =
      [BatchCookieModal.Event.markProcessing 0,
       BatchCookieModal.Event.submit "sessionKey=sk-ant-sid01-aaa".data,
       BatchCookieModal.Event.recordOutcome 0 Status.success,
       BatchCookieModal.Event.delay 300,
       BatchCookieModal.Event.markProcessing 1,
       BatchCookieModal.Event.recordOutcome 1 Status.error,
       BatchCookieModal.Event.markProcessing 2,
       BatchCookieModal.Event.submit "sessionKey=sk-ant-sid01-bbb".data,
       BatchCookieModal.Event.recordOutcome 2 Status.success,
       BatchCookieModal.Event.delay 300] ∧
    ((BatchCookieModal.handleSubmit b sampleBatchInput).1.filter
        (fun r => decide (r.status = Status.error))).length = 1 ∧
    BatchCookieModal.submissionsOf (BatchCookieModal.handleSubmit b sampleBatchInput).2.1 =
      ["sessionKey=sk-ant-sid01-aaa".data, "sessionKey=sk-ant-sid01-bbb".data] := by
  have hparse : BatchCookieModal.parseCookieLines sampleBatchInput =
      ["sk-ant-sid01-aaa".data, "garbage".data, "sessionKey=sk-ant-sid01-bbb".data] := by
    decide
  have hv1 : BatchCookieModal.validateAndProcessCookie "sk-ant-sid01-aaa".data =
      (true, "sessionKey=sk-ant-sid01-aaa".data) := by decide
  have hv2 : BatchCookieModal.validateAndProcessCookie "garbage".data =
      (false, "garbage".data) := by decide
  have hv3 : BatchCookieModal.validateAndProcessCookie "sessionKey=sk-ant-sid01-bbb".data =
      (true, "sessionKey=sk-ant-sid01-bbb".data) := by decide
  simp only [BatchCookieModal.handleSubmit]
  rw [hparse]
  simp only [List.length_cons, List.length_nil, List.map_cons, List.map_nil,
    BatchCookieModal.loopFrom, BatchCookieModal.updateAt, BatchCookieModal.itemEvents,
    BatchCookieModal.itemOutcome, hv1, hv2, hv3, hb1, hb3, BatchCookieModal.submissionsOf]
  simp

theorem batch_sample_run_witness :
    (BatchCookieModal.handleSubmit (fun _ => Except.ok "org".data) sampleBatchInput).1 =
      [{ cookie := "sk-ant-sid01-aaa".data, status := Status.success,
         organizationUuid := some "org".data },
       { cookie := "garbage".data, status := Status.error,
         error := some invalidCookieMessage },
       { cookie := "sessionKey=sk-ant-sid01-bbb".data, status := Status.success,
         organizationUuid := some "org".data }] :=
  (batch_sample_run (fun _ => Except.ok "org".data) "org".data "org".data rfl rfl).1

/-- C1 counterexample: with a backend accepting every submission, the sample
batch's event trace is the ten-event list with no `delay` between line 2's
validation-failure outcome and line 3's start — the `continue` at the end of
the invalid branch skips the 300 ms sleep — so the trace differs from the
eleven-event trace the original claim asserts, which places a delay after
every line including the invalid one. -/
theorem batch_sample_run_counterexample :
    (BatchCookieModal.handleSubmit (fun _ => Except.ok "org".data) sampleBatchInput).2.1 =
      [BatchCookieModal.Event.markProcessing 0,
       BatchCookieModal.Event.submit "sessionKey=sk-ant-sid01-aaa".data,
       BatchCookieModal.Event.recordOutcome 0 Status.success,
       BatchCookieModal.Event.delay 300,
       BatchCookieModal.Event.markProcessing 1,
       BatchCookieModal.Event.recordOutcome 1 Status.error,
       BatchCookieModal.Event.markProcessing 2,
       BatchCookieModal.Event.submit "sessionKey=sk-ant-sid01-bbb".data,
       BatchCookieModal.Event.recordOutcome 2 Status.success,
       BatchCookieModal.Event.delay 300] ∧
    (BatchCookieModal.handleSubmit (fun _ => Except.ok "org".data) sampleBatchInput).2.1 ≠
      [BatchCookieModal.Event.markProcessing 0,
       BatchCookieModal.Event.submit "sessionKey=sk-ant-sid01-aaa".data,
       BatchCookieModal.Event.recordOutcome 0 Status.success,
       BatchCookieModal.Event.delay 300,
       BatchCookieModal.Event.markProcessing 1,
       BatchCookieModal.Event.recordOutcome 1 Status.error,
       BatchCookieModal.Event.delay 300,
       BatchCookieModal.Event.markProcessing 2,
       BatchCookieModal.Event.submit "sessionKey=sk-ant-sid01-bbb".data,
       BatchCookieModal.Event.recordOutcome 2 Status.success,
       BatchCookieModal.Event.delay 300] := by
  constructor <;> decide

namespace BatchCookieModal

theorem updateAt_get? {α : Type} (l : List α) (i j : Nat) (f : α → α) :
    (updateAt l i f).get? j = if j = i then (l.get? j).map f else l.get? j := by
  induction l generalizing i j with
  | nil => simp [updateAt]
  | cons a l ih =>
    cases i with
    | zero =>
      cases j with
      | zero => simp [updateAt]
      | succ j => simp [updateAt]
    | succ i =>
      cases j with
      | zero => simp [updateAt]
      | succ j => simpa [updateAt, Nat.succ_eq_add_one] using ih i j

theorem updateAt_length {α : Type} (l : List α) (i : Nat) (f : α → α) :
    (updateAt l i f).length = l.length := by
  induction l generalizing i with
  | nil => rfl
  | cons a l ih =>
    cases i with
    | zero => simp [updateAt]
    | succ i => simp [updateAt, ih]

theorem advances_trans {a b c : List CookieResult} (h1 : Advances a b) (h2 : Advances b c) :
    Advances a c := by
  obtain ⟨hl1, h1⟩ := h1
  obtain ⟨hl2, h2⟩ := h2
  refine ⟨hl2.trans hl1, ?_⟩
  intro j r r'' ha hc
  have hj : j < b.length := by
    have : j < a.length := (List.get?_eq_some.mp ha).1
    omega
  have hb : b.get? j = some (b.get ⟨j, hj⟩) := List.get?_eq_get hj
  obtain ⟨m1, t1⟩ := h1 j r _ ha hb
  obtain ⟨m2, t2⟩ := h2 j _ r'' hb hc
  refine ⟨m1.trans m2, ?_⟩
  intro ht
  have hb' := t1 ht
  have hterm : Terminal (b.get ⟨j, hj⟩).status := by rw [hb']; exact ht
  rw [t2 hterm, hb']

end BatchCookieModal

namespace BatchCookieModal

theorem pairwise_of_chain_advances :
    ∀ {l : List (List CookieResult)}, List.Chain' Advances l → List.Pairwise Advances l := by
  intro l hl
  haveI : IsTrans (List CookieResult) Advances := ⟨fun _ _ _ => advances_trans⟩
  exact List.chain'_iff_pairwise.mp hl

theorem advances_updateAt (rs : List CookieResult) (i : Nat) (f : CookieResult → CookieResult)
    (h : ∀ r, rs.get? i = some r →
      statusRank r.status ≤ statusRank (f r).status ∧
      (Terminal r.status → (f r).status = r.status)) :
    Advances rs (updateAt rs i f) := by
  refine ⟨updateAt_length rs i f, ?_⟩
  intro j r r' hj hj'
  rw [updateAt_get?] at hj'
  by_cases hji : j = i
  · subst hji
    rw [if_pos rfl, hj] at hj'
    simp only [Option.map_some', Option.some.injEq] at hj'
    subst hj'
    exact h r hj
  · rw [if_neg hji, hj] at hj'
    obtain rfl : r = r' := by injection hj'
    exact ⟨le_refl _, fun _ => rfl⟩

theorem itemOutcome_status (b : Backend) (c : List Char) (r : CookieResult) :
    (itemOutcome b c r).status = Status.success ∨ (itemOutcome b c r).status = Status.error := by
  unfold itemOutcome
  by_cases h : (validateAndProcessCookie c).1 = true
  · simp only [h, if_true]
    cases b (validateAndProcessCookie c).2 with
    | ok uuid => left; rfl
    | error m => right; rfl
  · simp only [h]
    simp

end BatchCookieModal

namespace BatchCookieModal

theorem chain_loopFrom (b : Backend) :
    ∀ (lines : List (List Char)) (i : Nat) (rs : List CookieResult),
    (∀ j r, i ≤ j → rs.get? j = some r → r.status = Status.pending) →
    List.Chain' Advances (rs :: (loopFrom b i lines rs).2.2)
  | [], i, rs, hinv => by simp [loopFrom]
  | c :: rest, i, rs, hinv => by
    have h1 : Advances rs (updateAt rs i (fun r => { r with status := Status.processing })) := by
      apply advances_updateAt
      intro r hr
      have hp := hinv i r (le_refl i) hr
      constructor
      · rw [hp]; simp [statusRank]
      · intro ht; rw [hp] at ht; simp [Terminal] at ht
    have hget1 : ∀ j, (updateAt rs i (fun r => { r with status := Status.processing })).get? j =
        if j = i then (rs.get? j).map (fun r => { r with status := Status.processing })
        else rs.get? j := fun j => updateAt_get? rs i j _
    have h2 : Advances (updateAt rs i (fun r => { r with status := Status.processing }))
        (updateAt (updateAt rs i (fun r => { r with status := Status.processing })) i
          (itemOutcome b c)) := by
      apply advances_updateAt
      intro r hr
      rw [hget1 i, if_pos rfl] at hr
      cases hrs : rs.get? i with
      | none => rw [hrs] at hr; simp at hr
      | some r0 =>
        rw [hrs] at hr
        simp only [Option.map_some', Option.some.injEq] at hr
        subst hr
        constructor
        · rcases itemOutcome_status b c { r0 with status := Status.processing } with h | h <;>
            rw [h] <;> simp [statusRank]
        · intro ht; simp [Terminal] at ht
    have hinv2 : ∀ j r, i + 1 ≤ j →
        (updateAt (updateAt rs i (fun r => { r with status := Status.processing })) i
          (itemOutcome b c)).get? j = some r → r.status = Status.pending := by
      intro j r hij hr
      have hji : j ≠ i := by omega
      rw [updateAt_get?, if_neg hji, hget1 j, if_neg hji] at hr
      exact hinv j r (by omega) hr
    have ih := chain_loopFrom b rest (i + 1)
      (updateAt (updateAt rs i (fun r => { r with status := Status.processing })) i
        (itemOutcome b c)) hinv2
    simp only [loopFrom]
    exact List.Chain'.cons h1 (List.Chain'.cons h2 ih)

/-- C4: within one batch run, the sequence of `results` states (the initial
pending array followed by every `setResults` snapshot of the loop) only ever
advances each row along pending → processing → success/error; between any two
states of the run no row's rank decreases and a terminal status never changes
again. -/
theorem batch_status_monotone (b : Backend) (input : List Char) :
    List.Pairwise Advances (handleSubmit b input).2.2 := by
  unfold handleSubmit
  by_cases h : (parseCookieLines input).length = 0
  · simp [h]
  · simp only [h, if_false]
    apply pairwise_of_chain_advances
    apply chain_loopFrom
    intro j r _ hr
    rw [List.get?_map] at hr
    cases hl : (parseCookieLines input).get? j with
    | none => rw [hl] at hr; simp at hr
    | some c =>
      rw [hl] at hr
      simp only [Option.map_some', Option.some.injEq] at hr
      rw [← hr]

theorem batch_status_monotone_witness :
    List.Pairwise Advances
      ((handleSubmit (fun _ => Except.ok "org".data) sampleBatchInput).2.2) :=
  batch_status_monotone (fun _ => Except.ok "org".data) sampleBatchInput

end BatchCookieModal

namespace BatchCookieModal

theorem loopFrom_final_terminal (b : Backend) :
    ∀ (lines : List (List Char)) (i : Nat) (rs : List CookieResult),
    rs.length ≤ i + lines.length →
    (∀ j r, j < i → rs.get? j = some r → Terminal r.status) →
    ∀ r ∈ (loopFrom b i lines rs).1, Terminal r.status
  | [], i, rs, hlen, hterm => by
    intro r hr
    simp only [loopFrom] at hr
    obtain ⟨j, hj⟩ := List.get?_of_mem hr
    have hlen' : rs.length ≤ i := by simpa using hlen
    exact hterm j r (by
      have : j < rs.length := (List.get?_eq_some.mp hj).1
      omega) hj
  | c :: rest, i, rs, hlen, hterm => by
    intro r hr
    simp only [loopFrom] at hr
    refine loopFrom_final_terminal b rest (i + 1)
      (updateAt (updateAt rs i (fun x => { x with status := Status.processing })) i
        (itemOutcome b c)) ?_ ?_ r hr
    · rw [updateAt_length, updateAt_length]
      simpa [Nat.add_comm, Nat.add_left_comm] using hlen
    · intro j r0 hj hr0
      rw [updateAt_get?] at hr0
      by_cases hji : j = i
      · subst hji
        rw [if_pos rfl, updateAt_get?, if_pos rfl] at hr0
        cases hrs : rs.get? j with
        | none => rw [hrs] at hr0; simp at hr0
        | some r1 =>
          rw [hrs] at hr0
          simp only [Option.map_some', Option.some.injEq] at hr0
          subst hr0
          exact itemOutcome_status b c _
      · rw [if_neg hji, updateAt_get?, if_neg hji] at hr0
        exact hterm j r0 (by omega) hr0

/-- C5: during a batch run every intermediate modal state has `isProcessing`
set, so the close action is a no-op — in particular whenever some row is
still pending or processing — and `onClose` is never invoked before the run
ends; in the state after the run every row is terminal and the close action
does invoke `onClose`. -/
theorem batch_close_noop_while_processing (b : Backend) (input : List Char) :
    (∀ s ∈ runModalStates b input,
      (∃ r ∈ s.results, r.status = Status.pending ∨ r.status = Status.processing) →
        handleClose s = false) ∧
    (∀ s ∈ runModalStates b input, s.isProcessing = true → handleClose s = false) ∧
    (∀ s ∈ runModalStates b input, s.isProcessing = false →
      handleClose s = true ∧ ∀ r ∈ s.results, Terminal r.status) := by
  by_cases h : (parseCookieLines input).length = 0
  · refine ⟨?_, ?_, ?_⟩ <;> intro s hs <;> simp [runModalStates, h] at hs
  · have hmem : ∀ s ∈ runModalStates b input,
        s.isProcessing = true ∨
          (s.isProcessing = false ∧ s.results = (handleSubmit b input).1) := by
      intro s hs
      simp only [runModalStates, if_neg h, List.mem_append, List.mem_map,
        List.mem_singleton] at hs
      rcases hs with ⟨rs, _, rfl⟩ | rfl
      · left; rfl
      · right; exact ⟨rfl, rfl⟩
    have hfin : ∀ r ∈ (handleSubmit b input).1, Terminal r.status := by
      unfold handleSubmit
      simp only [if_neg h]
      apply loopFrom_final_terminal
      · simp
      · intro j r hj _; omega
    refine ⟨?_, ?_, ?_⟩
    · intro s hs hex
      rcases hmem s hs with hp | ⟨hp, hres⟩
      · simp [handleClose, hp]
      · exfalso
        obtain ⟨r, hr, hst⟩ := hex
        rcases hst with hst | hst <;>
          · have := hfin r (hres ▸ hr)
            rw [hst] at this
            simp [Terminal] at this
    · intro s hs hp
      simp [handleClose, hp]
    · intro s hs hp
      rcases hmem s hs with hp' | ⟨_, hres⟩
      · rw [hp] at hp'; cases hp'
      · refine ⟨by simp [handleClose, hp], ?_⟩
        intro r hr
        exact hfin r (hres ▸ hr)

theorem batch_close_noop_while_processing_witness :
    ∀ s ∈ runModalStates (fun _ => Except.ok "org".data) sampleBatchInput,
      s.isProcessing = true → handleClose s = false :=
  (batch_close_noop_while_processing (fun _ => Except.ok "org".data) sampleBatchInput).2.1

end BatchCookieModal

theorem trimRight_sub : ∀ (l : List Char) (x : Char), x ∈ trimRight l → x ∈ l
  | [], x, hx => by simp [trimRight] at hx
  | c :: rest, x, hx => by
    simp only [trimRight] at hx
    by_cases hr : trimRight rest = []
    · rw [if_pos hr] at hx
      by_cases hw : isWS c
      · simp [hw] at hx
      · rw [if_neg hw] at hx
        rcases List.mem_singleton.mp hx with rfl
        exact List.mem_cons_self _ _
    · rw [if_neg hr] at hx
      rcases List.mem_cons.mp hx with rfl | hx2
      · exact List.mem_cons_self _ _
      · exact List.mem_cons_of_mem _ (trimRight_sub rest x hx2)

theorem trimRight_idem : ∀ (l : List Char), trimRight (trimRight l) = trimRight l
  | [] => rfl
  | c :: rest => by
    simp only [trimRight]
    by_cases hr : trimRight rest = []
    · rw [if_pos hr]
      by_cases hw : isWS c
      · simp [hw, trimRight]
      · simp [hw, trimRight]
    · rw [if_neg hr]
      simp only [trimRight, trimRight_idem rest, if_neg hr]

theorem trimRight_head (c : Char) (rest : List Char) :
    trimRight (c :: rest) = [] ∨ ∃ t, trimRight (c :: rest) = c :: t := by
  simp only [trimRight]
  by_cases hr : trimRight rest = []
  · rw [if_pos hr]
    by_cases hw : isWS c
    · left; simp [hw]
    · right; exact ⟨[], by simp [hw]⟩
  · rw [if_neg hr]
    right; exact ⟨trimRight rest, rfl⟩

theorem dropWhile_head_false {p : Char → Bool} :
    ∀ (l : List Char) {c : Char} {rest : List Char},
      l.dropWhile p = c :: rest → p c = false := by
  intro l
  induction l with
  | nil => intro c rest h; simp [List.dropWhile] at h
  | cons a l ih =>
    intro c rest h
    by_cases hp : p a
    · rw [List.dropWhile_cons_of_pos hp] at h
      exact ih h
    · rw [List.dropWhile_cons_of_neg hp] at h
      cases h
      simpa using hp

theorem dropWhile_trimStr (s : List Char) :
    (trimStr s).dropWhile isWS = trimStr s := by
  unfold trimStr
  cases hu : s.dropWhile isWS with
  | nil => simp [trimRight]
  | cons c rest =>
    have hc : isWS c = false := dropWhile_head_false s hu
    rcases trimRight_head c rest with h | ⟨t, h⟩
    · simp [h]
    · rw [h, List.dropWhile_cons_of_neg (by simp [hc])]

theorem trimStr_idem (s : List Char) : trimStr (trimStr s) = trimStr s := by
  conv_lhs => rw [trimStr, dropWhile_trimStr]
  rw [trimStr, trimRight_idem]

theorem mem_trimStr {x : Char} {s : List Char} (hx : x ∈ trimStr s) : x ∈ s := by
  have h1 : x ∈ s.dropWhile isWS := trimRight_sub _ _ hx
  exact (List.dropWhile_sublist isWS (l := s)).subset h1

theorem splitOnNewline_ne_nil : ∀ (s : List Char), splitOnNewline s ≠ []
  | [] => by simp [splitOnNewline]
  | c :: rest => by
    simp only [splitOnNewline]
    by_cases h : c = '\n'
    · simp [h]
    · rw [if_neg h]
      cases hs : splitOnNewline rest with
      | nil => simp [consHead]
      | cons a t => simp [consHead]

theorem no_newline_mem_split :
    ∀ (s : List Char) (x : List Char), x ∈ splitOnNewline s → '\n' ∉ x
  | [], x, hx => by
    simp [splitOnNewline] at hx
    simp [hx]
  | c :: rest, x, hx => by
    simp only [splitOnNewline] at hx
    by_cases h : c = '\n'
    · rw [if_pos h] at hx
      rcases List.mem_cons.mp hx with rfl | hx2
      · simp
      · exact no_newline_mem_split rest x hx2
    · rw [if_neg h] at hx
      cases hs : splitOnNewline rest with
      | nil => exact absurd hs (splitOnNewline_ne_nil rest)
      | cons a t =>
        rw [hs] at hx
        simp only [consHead] at hx
        rcases List.mem_cons.mp hx with rfl | hx2
        · intro hmem
          rcases List.mem_cons.mp hmem with rfl | hmem2
          · exact h rfl
          · exact no_newline_mem_split rest a (hs ▸ List.mem_cons_self a t) hmem2
        · exact no_newline_mem_split rest x (hs ▸ List.mem_cons_of_mem a hx2)

theorem split_append (x : List Char) (hx : '\n' ∉ x) :
    ∀ (r : List Char) (h : List Char) (t : List (List Char)),
      splitOnNewline r = h :: t → splitOnNewline (x ++ r) = (x ++ h) :: t := by
  induction x with
  | nil => intro r h t hr; simpa using hr
  | cons c x ih =>
    intro r h t hr
    have hc : c ≠ '\n' := fun hcn => hx (hcn ▸ List.mem_cons_self c x)
    have hx' : '\n' ∉ x := fun hm => hx (List.mem_cons_of_mem c hm)
    simp only [List.cons_append, splitOnNewline, if_neg hc, List.append_eq]
    rw [ih hx' r h t hr]
    simp [consHead]

theorem split_single (x : List Char) (hx : '\n' ∉ x) : splitOnNewline x = [x] := by
  have := split_append x hx [] [] [] (by simp [splitOnNewline])
  simpa using this

theorem join_split :
    ∀ (l : List (List Char)), (∀ x ∈ l, '\n' ∉ x) → l ≠ [] →
      splitOnNewline (joinNewline l) = l
  | [], _, hne => absurd rfl hne
  | [x], hnl, _ => by
    simp only [joinNewline]
    exact split_single x (hnl x (by simp))
  | x :: y :: xs, hnl, _ => by
    simp only [joinNewline]
    have htail : splitOnNewline (joinNewline (y :: xs)) = y :: xs :=
      join_split (y :: xs) (fun z hz => hnl z (List.mem_cons_of_mem x hz)) (by simp)
    have hnlx : '\n' ∉ x := hnl x (List.mem_cons_self _ _)
    have hsplit : splitOnNewline ('\n' :: joinNewline (y :: xs)) =
        [] :: splitOnNewline (joinNewline (y :: xs)) := by
      simp [splitOnNewline]
    have := split_append x hnlx ('\n' :: joinNewline (y :: xs)) [] (y :: xs)
      (by rw [hsplit, htail])
    simpa using this

namespace BatchCookieModal

theorem mem_parseCookieLines {c : List Char} {input : List Char}
    (hc : c ∈ parseCookieLines input) :
    c ≠ [] ∧ trimStr c = c ∧ '\n' ∉ c := by
  unfold parseCookieLines at hc
  obtain ⟨hmem, hlen⟩ := List.mem_filter.mp hc
  obtain ⟨chunk, hchunk, rfl⟩ := List.mem_map.mp hmem
  refine ⟨?_, trimStr_idem chunk, ?_⟩
  · intro h
    rw [h] at hlen
    simp at hlen
  · intro hmem2
    exact no_newline_mem_split input chunk hchunk (mem_trimStr hmem2)

theorem itemOutcome_cookie (b : Backend) (c : List Char) (r : CookieResult) :
    (itemOutcome b c r).cookie = r.cookie := by
  unfold itemOutcome
  by_cases h : (validateAndProcessCookie c).1 = true
  · simp only [h, if_true]
    cases b (validateAndProcessCookie c).2 <;> rfl
  · simp [h]

theorem loopFrom_get_cookie (b : Backend) :
    ∀ (lines : List (List Char)) (i : Nat) (rs : List CookieResult) (j : Nat),
      ((loopFrom b i lines rs).1.get? j).map (fun r => r.cookie) =
        (rs.get? j).map (fun r => r.cookie)
  | [], _, _, _ => rfl
  | c :: rest, i, rs, j => by
    simp only [loopFrom]
    rw [loopFrom_get_cookie b rest (i + 1) _ j]
    rw [updateAt_get?, updateAt_get?]
    by_cases hji : j = i
    · subst hji
      rw [if_pos rfl, if_pos rfl]
      cases rs.get? j with
      | none => rfl
      | some r => simp [itemOutcome_cookie]
    · rw [if_neg hji, if_neg hji]

theorem handleSubmit_cookie_mem (b : Backend) (input : List Char) :
    ∀ r ∈ (handleSubmit b input).1, r.cookie ∈ parseCookieLines input := by
  intro r hr
  unfold handleSubmit at hr
  by_cases h : (parseCookieLines input).length = 0
  · simp [h] at hr
  · simp only [if_neg h] at hr
    obtain ⟨j, hj⟩ := List.get?_of_mem hr
    have hck := loopFrom_get_cookie b (parseCookieLines input) 0
      ((parseCookieLines input).map (fun c => { cookie := c, status := Status.pending })) j
    rw [hj] at hck
    rw [List.get?_map] at hck
    cases hl : (parseCookieLines input).get? j with
    | none => rw [hl] at hck; simp at hck
    | some c =>
      rw [hl] at hck
      simp only [Option.map_some', Option.some.injEq] at hck
      rw [hck]
      exact List.get?_mem hl

theorem parse_join (l : List (List Char))
    (hl : ∀ c ∈ l, c ≠ [] ∧ trimStr c = c ∧ '\n' ∉ c) :
    parseCookieLines (joinNewline l) = l := by
  cases l with
  | nil => decide
  | cons x xs =>
    have hsplit : splitOnNewline (joinNewline (x :: xs)) = x :: xs :=
      join_split _ (fun z hz => (hl z hz).2.2) (by simp)
    unfold parseCookieLines
    rw [hsplit]
    rw [List.map_congr_left (fun a ha => (hl a ha).2.1)]
    rw [List.map_id']
    rw [List.filter_eq_self.mpr]
    intro a ha
    have := (hl a ha).1
    simpa [List.length_pos] using this

/-- C8: the copy-failed-cookies text is exactly the raw (trimmed) input lines
whose status is `error`, joined with newlines in input order, and feeding
that text back through the batch line parser recovers exactly the failed
lines. -/
theorem copy_failed_roundtrip (b : Backend) (input : List Char) :
    copyFailedCookies (handleSubmit b input).1 =
      joinNewline (((handleSubmit b input).1.filter
        (fun r => decide (r.status = Status.error))).map (fun r => r.cookie)) ∧
    parseCookieLines (copyFailedCookies (handleSubmit b input).1) =
      ((handleSubmit b input).1.filter
        (fun r => decide (r.status = Status.error))).map (fun r => r.cookie) := by
  refine ⟨rfl, ?_⟩
  unfold copyFailedCookies
  apply parse_join
  intro c hc
  obtain ⟨r, hrmem, rfl⟩ := List.mem_map.mp hc
  exact mem_parseCookieLines
    (handleSubmit_cookie_mem b input r (List.mem_of_mem_filter hrmem))

theorem copy_failed_roundtrip_witness :
    parseCookieLines (copyFailedCookies
        (handleSubmit (fun _ => Except.error none) sampleBatchInput).1) =
      (((handleSubmit (fun _ => Except.error none) sampleBatchInput).1.filter
        (fun r => decide (r.status = Status.error))).map (fun r => r.cookie)) :=
  (copy_failed_roundtrip (fun _ => Except.error none) sampleBatchInput).2

end BatchCookieModal

theorem b64Char_ne_pad (i : Nat) : b64Char i ≠ '=' := by
  unfold b64Char
  rcases Nat.lt_or_ge i base64Alphabet.length with h | h
  · rw [List.getD_eq_getElem _ _ h]
    have hmem : base64Alphabet[i] ∈ base64Alphabet := List.getElem_mem h
    have hall : ∀ c ∈ base64Alphabet, c ≠ '=' := by decide
    exact hall _ hmem
  · rw [List.getD_eq_default _ _ h]
    decide

theorem btoa_nonpad_length :
    ∀ l : List Nat,
      ((btoa l).filter (fun c => decide (c ≠ '='))).length = (4 * l.length + 2) / 3
  | [] => by simp [btoa]
  | [b1] => by
    have h1 := b64Char_ne_pad (b1 / 4)
    have h2 := b64Char_ne_pad (b1 % 4 * 16)
    simp [btoa, h1, h2]
  | [b1, b2] => by
    have h1 := b64Char_ne_pad (b1 / 4)
    have h2 := b64Char_ne_pad (b1 % 4 * 16 + b2 / 16)
    have h3 := b64Char_ne_pad (b2 % 16 * 4)
    simp [btoa, h1, h2, h3]
  | b1 :: b2 :: b3 :: rest => by
    have h1 := b64Char_ne_pad (b1 / 4)
    have h2 := b64Char_ne_pad (b1 % 4 * 16 + b2 / 16)
    have h3 := b64Char_ne_pad (b2 % 16 * 4 + b3 / 64)
    have h4 := b64Char_ne_pad (b3 % 64)
    have ih := btoa_nonpad_length rest
    simp only [btoa]
    rw [List.filter_cons_of_pos (by simp [h1]), List.filter_cons_of_pos (by simp [h2]),
      List.filter_cons_of_pos (by simp [h3]), List.filter_cons_of_pos (by simp [h4])]
    simp only [List.length_cons]
    rw [ih]
    omega

theorem btoa_length : ∀ l : List Nat, (btoa l).length = 4 * ((l.length + 2) / 3)
  | [] => rfl
  | [_] => by simp [btoa]
  | [_, _] => by simp [btoa]
  | _ :: _ :: _ :: rest => by
    have ih := btoa_length rest
    simp only [btoa, List.length_cons] at ih ⊢
    rw [ih]
    omega

theorem btoa_pad_length :
    ∀ l : List Nat,
      ((btoa l).filter (fun c => decide (c = '='))).length = (3 - l.length % 3) % 3
  | [] => by simp [btoa]
  | [b1] => by
    have h1 := b64Char_ne_pad (b1 / 4)
    have h2 := b64Char_ne_pad (b1 % 4 * 16)
    simp [btoa, h1, h2]
  | [b1, b2] => by
    have h1 := b64Char_ne_pad (b1 / 4)
    have h2 := b64Char_ne_pad (b1 % 4 * 16 + b2 / 16)
    have h3 := b64Char_ne_pad (b2 % 16 * 4)
    simp [btoa, h1, h2, h3]
  | b1 :: b2 :: b3 :: rest => by
    have h1 := b64Char_ne_pad (b1 / 4)
    have h2 := b64Char_ne_pad (b1 % 4 * 16 + b2 / 16)
    have h3 := b64Char_ne_pad (b2 % 16 * 4 + b3 / 64)
    have h4 := b64Char_ne_pad (b3 % 64)
    have ih := btoa_pad_length rest
    simp only [btoa]
    rw [List.filter_cons_of_neg (by simp [h1]), List.filter_cons_of_neg (by simp [h2]),
      List.filter_cons_of_neg (by simp [h3]), List.filter_cons_of_neg (by simp [h4])]
    rw [ih]
    simp only [List.length_cons]
    omega

theorem urlmap_filter_length (cs : List Char) :
    (((cs.map (fun c => if c = '+' then '-' else c)).map
        (fun c => if c = '/' then '_' else c)).filter (fun c => decide (c ≠ '='))).length =
      (cs.filter (fun c => decide (c ≠ '='))).length := by
  induction cs with
  | nil => rfl
  | cons c cs ih =>
    simp only [List.map_cons]
    by_cases h : c = '='
    · subst h
      rw [List.filter_cons_of_neg (by simp), List.filter_cons_of_neg (by simp)]
      exact ih
    · have hmapped :
          ((if (if c = '+' then '-' else c) = '/' then '_' else
            (if c = '+' then '-' else c)) ≠ '=') := by
        by_cases h1 : c = '+' <;> by_cases h2 : c = '/' <;> simp_all
      rw [List.filter_cons_of_pos (by simpa using hmapped),
        List.filter_cons_of_pos (by simpa using h)]
      simp only [List.length_cons]
      rw [ih]

theorem base64url_length (bytes : List Nat) :
    (base64url bytes).length = (4 * bytes.length + 2) / 3 := by
  unfold base64url
  rw [urlmap_filter_length, btoa_nonpad_length]

theorem base64url_charset (bytes : List Nat) :
    ∀ c ∈ base64url bytes, c ≠ '+' ∧ c ≠ '/' ∧ c ≠ '=' := by
  intro c hc
  unfold base64url at hc
  obtain ⟨hmem, hne⟩ := List.mem_filter.mp hc
  obtain ⟨d, hd, rfl⟩ := List.mem_map.mp hmem
  obtain ⟨e, _, rfl⟩ := List.mem_map.mp hd
  refine ⟨?_, ?_, by simpa using hne⟩
  · by_cases h1 : e = '+' <;> by_cases h2 : (if e = '+' then '-' else e) = '/' <;>
      simp_all
  · by_cases h2 : (if e = '+' then '-' else e) = '/' <;> simp_all

/-- C2: every PKCE generation returns the base64url-without-padding encoding
of the 32 random bytes as verifier, and as challenge the same encoding of the
SHA-256 digest of the verifier's UTF-8 bytes (a deterministic function of the
verifier); both strings are non-empty and contain no '+', '/' or '='. -/
theorem generatePKCE_spec (digest : List Nat → List Nat) (randomBytes : List Nat)
    (hrand : randomBytes.length = 32) (hdig : ∀ m, (digest m).length = 32) :
    (OAuthModal.generatePKCE digest randomBytes).1 = base64url randomBytes ∧
    (OAuthModal.generatePKCE digest randomBytes).2 =
      base64url (digest (utf8Encode (OAuthModal.generatePKCE digest randomBytes).1)) ∧
    (OAuthModal.generatePKCE digest randomBytes).1 ≠ [] ∧
    (OAuthModal.generatePKCE digest randomBytes).2 ≠ [] ∧
    (∀ c ∈ (OAuthModal.generatePKCE digest randomBytes).1, c ≠ '+' ∧ c ≠ '/' ∧ c ≠ '=') ∧
    (∀ c ∈ (OAuthModal.generatePKCE digest randomBytes).2, c ≠ '+' ∧ c ≠ '/' ∧ c ≠ '=') := by
  refine ⟨rfl, rfl, ?_, ?_, base64url_charset _, base64url_charset _⟩
  · intro h
    have hl := base64url_length randomBytes
    rw [show (OAuthModal.generatePKCE digest randomBytes).1 = base64url randomBytes
      from rfl] at h
    rw [h, hrand] at hl
    simp at hl
  · intro h
    have hl := base64url_length
      (digest (utf8Encode (OAuthModal.generatePKCE digest randomBytes).1))
    rw [show (OAuthModal.generatePKCE digest randomBytes).2 =
        base64url (digest (utf8Encode (OAuthModal.generatePKCE digest randomBytes).1))
      from rfl] at h
    rw [h, hdig] at hl
    simp at hl

theorem generatePKCE_spec_witness :
    ((List.replicate 32 0).length = 32) ∧
    (OAuthModal.generatePKCE (fun _ => List.replicate 32 0) (List.replicate 32 0)).1 ≠ [] :=
  ⟨by simp,
    (generatePKCE_spec (fun _ => List.replicate 32 0) (List.replicate 32 0)
      (by simp) (fun m => by simp)).2.2.1⟩

/-- C9: both PKCE strings have exactly 43 characters: each encodes a 32-byte
value whose base64 form is 44 characters containing exactly one '=' of
padding, which the url-safe encoding strips. -/
theorem pkce_length_43 (digest : List Nat → List Nat) (randomBytes : List Nat)
    (hrand : randomBytes.length = 32) (hdig : ∀ m, (digest m).length = 32) :
    (OAuthModal.generatePKCE digest randomBytes).1.length = 43 ∧
    (OAuthModal.generatePKCE digest randomBytes).2.length = 43 ∧
    (btoa randomBytes).length = 44 ∧
    ((btoa randomBytes).filter (fun c => decide (c = '='))).length = 1 ∧
    (btoa (digest (utf8Encode (OAuthModal.generatePKCE digest randomBytes).1))).length = 44 ∧
    ((btoa (digest (utf8Encode (OAuthModal.generatePKCE digest randomBytes).1))).filter
        (fun c => decide (c = '='))).length = 1 := by
  refine ⟨?_, ?_, ?_, ?_, ?_, ?_⟩
  · rw [show (OAuthModal.generatePKCE digest randomBytes).1 = base64url randomBytes
      from rfl, base64url_length, hrand]
  · rw [show (OAuthModal.generatePKCE digest randomBytes).2 =
        base64url (digest (utf8Encode (OAuthModal.generatePKCE digest randomBytes).1))
      from rfl, base64url_length, hdig]
  · rw [btoa_length, hrand]
  · rw [btoa_pad_length, hrand]
  · rw [btoa_length, hdig]
  · rw [btoa_pad_length, hdig]

theorem pkce_length_43_witness :
    (OAuthModal.generatePKCE (fun _ => List.replicate 32 0) (List.replicate 32 0)).1.length =
      43 :=
  (pkce_length_43 (fun _ => List.replicate 32 0) (List.replicate 32 0)
    (by simp) (fun m => by simp)).1

/-- C7: the token-exchange submission is blocked exactly while the pasted
code trims to the empty string; otherwise the request body contains exactly
the formatted organization identifier, the pasted code, the stored PKCE
verifier, and the capability set of the selected tier
(Pro → [chat, claude_pro], Max → [chat, claude_max]). -/
theorem oauth_exchange_payload (formatUUID : List Char → List Char)
    (organizationUuid authCode pkceVerifier : List Char)
    (accountType : OAuthModal.AccountType) :
    (trimStr authCode = [] →
      OAuthModal.handleExchangeToken formatUUID organizationUuid authCode pkceVerifier
        accountType = none) ∧
    (trimStr authCode ≠ [] →
      OAuthModal.handleExchangeToken formatUUID organizationUuid authCode pkceVerifier
        accountType =
        some { organization_uuid := formatUUID organizationUuid
               code := authCode
               pkce_verifier := pkceVerifier
               capabilities := OAuthModal.capabilitiesFor accountType }) ∧
    OAuthModal.capabilitiesFor OAuthModal.AccountType.Pro =
      ["chat".data, "claude_pro".data] ∧
    OAuthModal.capabilitiesFor OAuthModal.AccountType.Max =
      ["chat".data, "claude_max".data] := by
  refine ⟨?_, ?_, rfl, rfl⟩
  · intro h
    simp [OAuthModal.handleExchangeToken, h]
  · intro h
    simp [OAuthModal.handleExchangeToken, h]

theorem oauth_exchange_payload_witness :
    trimStr "code-123".data ≠ [] ∧
    OAuthModal.handleExchangeToken (fun u => u) "org-uuid".data "code-123".data
      "verifier".data OAuthModal.AccountType.Pro =
      some { organization_uuid := "org-uuid".data
             code := "code-123".data
             pkce_verifier := "verifier".data
             capabilities := OAuthModal.capabilitiesFor OAuthModal.AccountType.Pro } :=
  ⟨by decide,
    (oauth_exchange_payload (fun u => u) "org-uuid".data "code-123".data "verifier".data
      OAuthModal.AccountType.Pro).2.1 (by decide)⟩

namespace Settings

theorem diffOpt_eq {α : Type} [DecidableEq α] (a b : α) :
    diffOpt a b = if a = b then none else some a := by
  unfold diffOpt
  by_cases h : a = b <;> simp [h]

theorem diffOpt_isSome {α : Type} [DecidableEq α] (a b : α) :
    (diffOpt a b).isSome = !decide (a = b) := by
  rw [diffOpt_eq]
  by_cases h : a = b <;> simp [h]

theorem hasChanges_false_iff (original current : SettingsRead) :
    hasChanges (computeChanges original current) = false ↔ current = original := by
  cases original
  cases current
  constructor
  · intro h
    simp only [hasChanges, computeChanges, diffOpt_isSome, Bool.or_eq_false_iff,
      Bool.not_eq_false', decide_eq_true_eq] at h
    simp only [SettingsRead.mk.injEq]
    tauto
  · intro heq
    cases heq
    simp [hasChanges, computeChanges, diffOpt_isSome]

end Settings

/-- C6: an autosave sends no request exactly when no field differs from the
baseline snapshot; when a request is sent, its patch contains, for every
field, the new value exactly when that field differs from the baseline and
omits it otherwise; in particular editing a single field yields a patch with
only that field. -/
theorem settings_autosave_minimal_patch (original current : Settings.SettingsRead) :
    (Settings.handleFieldChange original current = none ↔ current = original) ∧
    (∀ u, Settings.handleFieldChange original current = some u →
      u.api_keys = (if current.api_keys = original.api_keys then none
        else some current.api_keys) ∧
      u.admin_api_keys = (if current.admin_api_keys = original.admin_api_keys then none
        else some current.admin_api_keys) ∧
      u.claude_ai_url = (if current.claude_ai_url = original.claude_ai_url then none
        else some current.claude_ai_url) ∧
      u.claude_api_baseurl =
        (if current.claude_api_baseurl = original.claude_api_baseurl then none
        else some current.claude_api_baseurl) ∧
      u.proxy_url = (if current.proxy_url = original.proxy_url then none
        else some current.proxy_url) ∧
      u.custom_prompt = (if current.custom_prompt = original.custom_prompt then none
        else some current.custom_prompt) ∧
      u.human_name = (if current.human_name = original.human_name then none
        else some current.human_name) ∧
      u.assistant_name = (if current.assistant_name = original.assistant_name then none
        else some current.assistant_name) ∧
      u.padtxt_length = (if current.padtxt_length = original.padtxt_length then none
        else some current.padtxt_length) ∧
      u.use_real_roles = (if current.use_real_roles = original.use_real_roles then none
        else some current.use_real_roles) ∧
      u.allow_external_images =
        (if current.allow_external_images = original.allow_external_images then none
        else some current.allow_external_images) ∧
      u.preserve_chats = (if current.preserve_chats = original.preserve_chats then none
        else some current.preserve_chats)) ∧
    (∀ v, v ≠ original.claude_ai_url →
      Settings.handleFieldChange original { original with claude_ai_url := v } =
        some { Settings.emptyUpdate with claude_ai_url := some v }) := by
  refine ⟨?_, ?_, ?_⟩
  · unfold Settings.handleFieldChange
    by_cases h : Settings.hasChanges (Settings.computeChanges original current) = true
    · rw [if_pos h]
      rw [← Settings.hasChanges_false_iff original current]
      simp [h]
    · rw [if_neg h]
      rw [← Settings.hasChanges_false_iff original current]
      simp only [Bool.not_eq_true] at h
      simp [h]
  · intro u hu
    unfold Settings.handleFieldChange at hu
    by_cases h : Settings.hasChanges (Settings.computeChanges original current) = true
    · rw [if_pos h] at hu
      injection hu with hu
      subst hu
      exact ⟨Settings.diffOpt_eq _ _, Settings.diffOpt_eq _ _, Settings.diffOpt_eq _ _,
        Settings.diffOpt_eq _ _, Settings.diffOpt_eq _ _, Settings.diffOpt_eq _ _,
        Settings.diffOpt_eq _ _, Settings.diffOpt_eq _ _, Settings.diffOpt_eq _ _,
        Settings.diffOpt_eq _ _, Settings.diffOpt_eq _ _, Settings.diffOpt_eq _ _⟩
    · rw [if_neg h] at hu
      cases hu
  · intro v hv
    unfold Settings.handleFieldChange
    have hc : Settings.computeChanges original { original with claude_ai_url := v } =
        { Settings.emptyUpdate with claude_ai_url := some v } := by
      simp [Settings.computeChanges, Settings.emptyUpdate, Settings.diffOpt_eq, hv]
    rw [hc]
    simp [Settings.hasChanges, Settings.emptyUpdate]

theorem settings_autosave_minimal_patch_witness :
    ("new-url".data ≠
      (Settings.SettingsRead.mk ["k1".data] ["a1".data] "url".data "base".data none none
        "Human".data "Assistant".data 0 false false false).claude_ai_url) ∧
    Settings.handleFieldChange
      (Settings.SettingsRead.mk ["k1".data] ["a1".data] "url".data "base".data none none
        "Human".data "Assistant".data 0 false false false)
      { Settings.SettingsRead.mk ["k1".data] ["a1".data] "url".data "base".data none none
          "Human".data "Assistant".data 0 false false false with
        claude_ai_url := "new-url".data } =
      some { Settings.emptyUpdate with claude_ai_url := some "new-url".data } :=
  ⟨by decide,
    (settings_autosave_minimal_patch
      (Settings.SettingsRead.mk ["k1".data] ["a1".data] "url".data "base".data none none
        "Human".data "Assistant".data 0 false false false)
      (Settings.SettingsRead.mk ["k1".data] ["a1".data] "url".data "base".data none none
        "Human".data "Assistant".data 0 false false false)).2.2
      "new-url".data (by decide)⟩

/-- C10: adding an API key or admin key is a no-op when the entered key is
empty or already present, so a duplicate-free key list stays duplicate-free
across adds; removing a key filters out every occurrence of exactly that
key. -/
theorem settings_key_lists_spec (s : Settings.SettingsRead) (k : List Char) :
    (k = [] ∨ k ∈ s.api_keys → Settings.handleAddApiKey s k = s) ∧
    (s.api_keys.Nodup → (Settings.handleAddApiKey s k).api_keys.Nodup) ∧
    (k = [] ∨ k ∈ s.admin_api_keys → Settings.handleAddAdminKey s k = s) ∧
    (s.admin_api_keys.Nodup → (Settings.handleAddAdminKey s k).admin_api_keys.Nodup) ∧
    (k ∉ (Settings.handleRemoveApiKey s k).api_keys ∧
      ∀ x, x ≠ k →
        (x ∈ (Settings.handleRemoveApiKey s k).api_keys ↔ x ∈ s.api_keys)) ∧
    (k ∉ (Settings.handleRemoveAdminKey s k).admin_api_keys ∧
      ∀ x, x ≠ k →
        (x ∈ (Settings.handleRemoveAdminKey s k).admin_api_keys ↔
          x ∈ s.admin_api_keys)) := by
  refine ⟨?_, ?_, ?_, ?_, ⟨?_, ?_⟩, ⟨?_, ?_⟩⟩
  · intro h
    simp [Settings.handleAddApiKey, h]
  · intro hnd
    unfold Settings.handleAddApiKey
    by_cases h : k = [] ∨ k ∈ s.api_keys
    · rw [if_pos h]
      exact hnd
    · rw [if_neg h]
      push_neg at h
      simp [List.nodup_append, hnd, h.2]
  · intro h
    simp [Settings.handleAddAdminKey, h]
  · intro hnd
    unfold Settings.handleAddAdminKey
    by_cases h : k = [] ∨ k ∈ s.admin_api_keys
    · rw [if_pos h]
      exact hnd
    · rw [if_neg h]
      push_neg at h
      simp [List.nodup_append, hnd, h.2]
  · simp [Settings.handleRemoveApiKey, List.mem_filter]
  · intro x hx
    simp [Settings.handleRemoveApiKey, List.mem_filter, hx]
  · simp [Settings.handleRemoveAdminKey, List.mem_filter]
  · intro x hx
    simp [Settings.handleRemoveAdminKey, List.mem_filter, hx]

theorem settings_key_lists_spec_witness :
    Settings.handleAddApiKey
      (Settings.SettingsRead.mk ["k1".data] ["a1".data] "url".data "base".data none none
        "Human".data "Assistant".data 0 false false false) "k1".data =
      (Settings.SettingsRead.mk ["k1".data] ["a1".data] "url".data "base".data none none
        "Human".data "Assistant".data 0 false false false) :=
  (settings_key_lists_spec
    (Settings.SettingsRead.mk ["k1".data] ["a1".data] "url".data "base".data none none
      "Human".data "Assistant".data 0 false false false) "k1".data).1
    (Or.inr (by decide))
